import Mathlib

/-!
Verification of the lexical node-subtype excerpt: a shallow embedding of the
node classes (HashtagNode, MentionNode, HorizontalRuleNode, OverflowNode),
their DOM export/import conversions, and the core document-tree / command /
transaction machinery that the excerpt consumes.  Methods of the node classes
are translated directly from the TypeScript sources; parts of the lexical core
that are not in the excerpt (base-class constructors, the node table, command
dispatch, the transaction engine) are modelled from the specification and say
so in their doc comments.
-/

set_option autoImplicit false

/-- Node keys are stable opaque identifiers, unique within an editor instance
(spec glossary).  Modelled as natural numbers. -/
abbrev NodeKey := Nat

/-- Text-node boundary mode (spec data model: normal / segmented / token). -/
inductive TextMode where
  | normal
  | segmented
  | token
deriving DecidableEq, Repr

/-- Modelled from the spec: the core TextNode base class (not in the excerpt).
A text node carries its string content, its key, a boundary mode and the
directionless detail flag; the constructor produces a node in normal mode with
the directionless flag cleared. -/
structure TextNode where
  text : String
  key : NodeKey
  mode : TextMode
  directionless : Bool
deriving DecidableEq, Repr

/-- Modelled from the spec: the TextNode base constructor. -/
def TextNode.new (text : String) (key : NodeKey) : TextNode :=
  { text := text, key := key, mode := TextMode.normal, directionless := false }

/-- Modelled from the spec: setMode on the core TextNode sets the boundary
mode and returns the node. -/
def TextNode.setMode (n : TextNode) (m : TextMode) : TextNode :=
  { n with mode := m }

/-- Modelled from the spec: toggleDirectionless on the core TextNode toggles
the directionless detail flag and returns the node. -/
def TextNode.toggleDirectionless (n : TextNode) : TextNode :=
  { n with directionless := !n.directionless }

/-- Modelled from the spec: applyNodeReplacement can transparently substitute
a replacement node registered in the editor config; with no replacement
registered (none is registered anywhere in the excerpt) it returns the node
unchanged. -/
def applyNodeReplacement {α : Type} (node : α) : α := node

/-- HashtagNode extends TextNode and adds no fields (source part_001). -/
structure HashtagNode extends TextNode
deriving DecidableEq, Repr

/-- HashtagNode constructor: super(text, key) then applyNodeReplacement. -/
def HashtagNode.new (text : String) (key : NodeKey) : HashtagNode :=
  applyNodeReplacement { toTextNode := TextNode.new text key }

/-- HashtagNode.clone from the source: new HashtagNode(node.text, node.key). -/
def HashtagNode.clone (node : HashtagNode) : HashtagNode :=
  HashtagNode.new node.text node.key

/-- HashtagNode.getType from the source. -/
def HashtagNode.getType : String := "hashtag"

/-- HashtagNode.canInsertTextBefore from the source: returns false. -/
def HashtagNode.canInsertTextBefore (_node : HashtagNode) : Bool := false

/-- HashtagNode.isTextEntity from the source: returns true. -/
def HashtagNode.isTextEntity (_node : HashtagNode) : Bool := true

/-- createHashtagNode factory from the source (text defaults to the empty
string at call sites); the key argument models the key generated by the
core. -/
def createHashtagNode (text : String) (key : NodeKey) : HashtagNode :=
  HashtagNode.new text key

/-- MentionNode extends TextNode with the mention name field (source
MentionNode.ts). -/
structure MentionNode extends TextNode where
  mention : String
deriving DecidableEq, Repr

/-- MentionNode constructor from the source: super(text ?? mentionName, key);
this.mention = mentionName; applyNodeReplacement. -/
def MentionNode.new (mentionName : String) (text : Option String)
    (key : NodeKey) : MentionNode :=
  applyNodeReplacement
    { toTextNode := TextNode.new (text.getD mentionName) key,
      mention := mentionName }

/-- MentionNode.clone from the source:
new MentionNode(node.mention, node.text, node.key). -/
def MentionNode.clone (node : MentionNode) : MentionNode :=
  MentionNode.new node.mention (some node.text) node.key

/-- MentionNode.getType from the source. -/
def MentionNode.getType : String := "mention"

/-- MentionNode.isTextEntity from the source: returns true. -/
def MentionNode.isTextEntity (_node : MentionNode) : Bool := true

/-- setMode lifted to MentionNode (inherited from the TextNode base). -/
def MentionNode.setMode (n : MentionNode) (m : TextMode) : MentionNode :=
  { n with toTextNode := n.toTextNode.setMode m }

/-- toggleDirectionless lifted to MentionNode (inherited from TextNode). -/
def MentionNode.toggleDirectionless (n : MentionNode) : MentionNode :=
  { n with toTextNode := n.toTextNode.toggleDirectionless }

/-- createMentionNode factory from the source: build the node, then
setMode('segmented').toggleDirectionless(); the key argument models the key
generated by the core. -/
def createMentionNode (mentionName : String) (key : NodeKey) : MentionNode :=
  let mentionNode := MentionNode.new mentionName none key
  (mentionNode.setMode TextMode.segmented).toggleDirectionless

/-- HorizontalRuleNode: a DecoratorNode carrying only its key (source
LexicalGridCellNode.ts second segment). -/
structure HorizontalRuleNode where
  key : NodeKey
deriving DecidableEq, Repr

/-- HorizontalRuleNode constructor: super(key) then applyNodeReplacement. -/
def HorizontalRuleNode.new (key : NodeKey) : HorizontalRuleNode :=
  applyNodeReplacement { key := key }

/-- HorizontalRuleNode.clone from the source: new HorizontalRuleNode(node.key). -/
def HorizontalRuleNode.clone (node : HorizontalRuleNode) : HorizontalRuleNode :=
  HorizontalRuleNode.new node.key

/-- HorizontalRuleNode.getType from the source. -/
def HorizontalRuleNode.getType : String := "horizontalrule"

/-- HorizontalRuleNode.getTextContent from the source: returns a newline. -/
def HorizontalRuleNode.getTextContent (_node : HorizontalRuleNode) : String :=
  "\n"

/-- HorizontalRuleNode.isInline from the source: returns false. -/
def HorizontalRuleNode.isInline (_node : HorizontalRuleNode) : Bool := false

/-- HorizontalRuleNode.updateDOM from the source: takes no arguments and
returns false unconditionally. -/
def HorizontalRuleNode.updateDOM (_node : HorizontalRuleNode) : Bool := false

/-- createHorizontalRuleNode factory from the source; the key argument models
the key generated by the core. -/
def createHorizontalRuleNode (key : NodeKey) : HorizontalRuleNode :=
  HorizontalRuleNode.new key

/-- OverflowNode: an ElementNode holding its key and ordered child keys
(source lexical-overflow/src/index.ts); the ElementNode base constructor
starts with no children. -/
structure OverflowNode where
  key : NodeKey
  children : List NodeKey
deriving DecidableEq, Repr

/-- OverflowNode constructor: super(key) then applyNodeReplacement. -/
def OverflowNode.new (key : NodeKey) : OverflowNode :=
  applyNodeReplacement { key := key, children := [] }

/-- OverflowNode.clone from the source: new OverflowNode(node.key). -/
def OverflowNode.clone (node : OverflowNode) : OverflowNode :=
  OverflowNode.new node.key

/-- OverflowNode.getType from the source. -/
def OverflowNode.getType : String := "overflow"

/-- OverflowNode.excludeFromCopy from the source: returns true. -/
def OverflowNode.excludeFromCopy (_node : OverflowNode) : Bool := true


/-- Shallow model of a DOM element: tag name, attribute list, text content
(null when never assigned). -/
structure DOMElement where
  tag : String
  attributes : List (String × String)
  textContent : Option String
deriving DecidableEq, Repr

/-- Modelled from the spec collaborator API: document.createElement. -/
def DOMElement.createElement (tag : String) : DOMElement :=
  { tag := tag, attributes := [], textContent := none }

/-- Modelled from the spec collaborator API: element.setAttribute. -/
def DOMElement.setAttribute (el : DOMElement) (name value : String) :
    DOMElement :=
  { el with attributes := el.attributes ++ [(name, value)] }

/-- Modelled from the spec collaborator API: element.hasAttribute. -/
def DOMElement.hasAttribute (el : DOMElement) (name : String) : Bool :=
  el.attributes.any (fun p => p.1 == name)

/-- OverflowNode.updateDOM from the source: ignores the previous node and the
DOM element and returns false. -/
def OverflowNode.updateDOM (_node : OverflowNode) (_prevNode : OverflowNode)
    (_dom : DOMElement) : Bool := false

/-- Nodes produced by DOM import conversions in the excerpt. -/
inductive DOMImportedNode where
  | mention (node : MentionNode)
  | horizontalRule (node : HorizontalRuleNode)
deriving DecidableEq, Repr

/-- A DOM conversion entry: the conversion function together with the
priority used to break ties between converters (the key argument of the
conversion models the key generated by the core for the new node). -/
structure DOMConversion where
  conversion : DOMElement → NodeKey → Option DOMImportedNode
  priority : Nat

/-- A DOM conversion map: given the element tag and the element, optionally a
conversion entry (flattening the tag-indexed map of the source with the
per-element handler it stores). -/
def DOMConversionMapT : Type := String → DOMElement → Option DOMConversion

/-- convertMentionElement from the source: if the element's textContent is
not null, build a mention node from it via the createMentionNode factory. -/
def convertMentionElement (domNode : DOMElement) (key : NodeKey) :
    Option DOMImportedNode :=
  match domNode.textContent with
  | some textContent => some (DOMImportedNode.mention
      (createMentionNode textContent key))
  | none => none

/-- MentionNode.exportDOM from the source: a span element with the
data-lexical-mention attribute set to true and the node's text as its text
content. -/
def MentionNode.exportDOM (node : MentionNode) : DOMElement :=
  let element := DOMElement.createElement "span"
  let element := element.setAttribute "data-lexical-mention" "true"
  { element with textContent := some node.text }

/-- MentionNode.importDOM from the source: a map whose span entry returns
null unless the element carries the data-lexical-mention attribute, and
otherwise the convertMentionElement conversion at priority 1. -/
def MentionNode.importDOM : Option DOMConversionMapT :=
  some (fun tag domNode =>
    if tag == "span" then
      if !(domNode.hasAttribute "data-lexical-mention") then none
      else some { conversion := convertMentionElement, priority := 1 }
    else none)

/-- convertHorizontalRuleElement from the source: always a fresh horizontal
rule node from the factory. -/
def convertHorizontalRuleElement (_domNode : DOMElement) (key : NodeKey) :
    Option DOMImportedNode :=
  some (DOMImportedNode.horizontalRule (createHorizontalRuleNode key))

/-- HorizontalRuleNode.exportDOM from the source: an hr element. -/
def HorizontalRuleNode.exportDOM (_node : HorizontalRuleNode) : DOMElement :=
  DOMElement.createElement "hr"

/-- HorizontalRuleNode.importDOM from the source: a map whose hr entry is the
convertHorizontalRuleElement conversion at priority 0. -/
def HorizontalRuleNode.importDOM : Option DOMConversionMapT :=
  some (fun tag _domNode =>
    if tag == "hr" then
      some { conversion := convertHorizontalRuleElement, priority := 0 }
    else none)

/-- OverflowNode.importDOM from the source: returns null, so no external
element ever converts into an overflow node. -/
def OverflowNode.importDOM : Option DOMConversionMapT := none

/-- Modelled from the spec: the core applies a node class's registered import
map to an external element by looking up the element's tag, running the
stored handler on the element, and applying the resulting conversion; a null
map, a missing tag entry or a null handler result yields no node. -/
def runImport (importMap : Option DOMConversionMapT) (el : DOMElement)
    (key : NodeKey) : Option DOMImportedNode :=
  match importMap with
  | none => none
  | some m =>
    match m el.tag el with
    | none => none
    | some c => c.conversion el key

/-- Modelled from the spec (reconciler): the reconciler may merge adjacent
compatible text runs only when a node's mode is normal; it must not merge
across a segmented or token node. -/
def canMergeTextRun (n : TextNode) : Bool := n.mode == TextMode.normal

/-- Reconciler action for a node present in both the previous and the next
Editor State. -/
inductive ReconcileAction where
  | keep
  | replace
deriving DecidableEq, Repr

/-- Modelled from the spec (reconciler): for a node present in both states the
reconciler calls updateDOM and destroys/recreates the DOM element exactly when
it returns true. -/
def reconcileBoth (updateResult : Bool) : ReconcileAction :=
  if updateResult then ReconcileAction.replace else ReconcileAction.keep

/-- Payload data of a node in the document tree (spec data model variants, to
the extent the excerpt exercises them). -/
inductive NodeData where
  | root
  | element (tag : String)
  | text (node : TextNode)
  | horizontalRule
  | overflow
deriving DecidableEq, Repr

/-- Modelled from the spec: a node in the document tree holds a nullable
parent key (null only for Root) and an ordered list of child keys. -/
structure TreeNode where
  parent : Option NodeKey
  children : List NodeKey
  data : NodeData
deriving DecidableEq, Repr

/-- Modelled from the spec: the node table of an Editor State, key to node. -/
abbrev NodeTable := List (NodeKey × TreeNode)

/-- Modelled from the spec: getNodeByKey, the key lookup in the node table. -/
def getNode (t : NodeTable) (k : NodeKey) : Option TreeNode :=
  match t.find? (fun p => p.1 == k) with
  | Option.some p => Option.some p.2
  | Option.none => Option.none

/-- Selection variants of the spec data model: Range, Node and None. -/
inductive Selection where
  | range (anchorKey : NodeKey) (anchorOffset : Nat)
      (focusKey : NodeKey) (focusOffset : Nat)
  | nodeSelection (keys : List NodeKey)
  | noSelection
deriving DecidableEq, Repr

/-- isNodeSelection from the core: whether the selection is the Node
variant. -/
def Selection.isNodeSelection : Selection → Bool
  | Selection.nodeSelection _ => true
  | _ => false

/-- Modelled from the spec: a node-selection tracks a set of keys; isSelected
reports whether the given key is in the current node selection. -/
def Selection.isSelected (s : Selection) (k : NodeKey) : Bool :=
  match s with
  | Selection.nodeSelection ks => ks.contains k
  | _ => false

/-- Modelled from the spec: setSelected of useLexicalNodeSelection adds the
key to the node-selection's key set when the value is true and removes it
when the value is false. -/
def Selection.setSelected (s : Selection) (k : NodeKey) (value : Bool) :
    Selection :=
  match s with
  | Selection.nodeSelection ks =>
    if value then
      Selection.nodeSelection (if ks.contains k then ks else ks ++ [k])
    else
      Selection.nodeSelection (ks.filter (fun k2 => k2 != k))
  | s2 => s2

/-- Modelled from the spec: an Editor State snapshot, node table plus
selection snapshot. -/
structure EditorState where
  table : NodeTable
  selection : Selection
deriving DecidableEq, Repr

/-- Drop one child key from a tree node's ordered child list. -/
def eraseChildKey (k : NodeKey) (n : TreeNode) : TreeNode :=
  { n with children := n.children.erase k }

/-- Modelled from the spec: node.remove() evicts the node's key from the
table and detaches it from its parent's ordered child list. -/
def removeNode (t : NodeTable) (k : NodeKey) : NodeTable :=
  match getNode t k with
  | Option.none => t
  | Option.some n =>
    let t2 := t.filter (fun p => p.1 != k)
    match n.parent with
    | Option.none => t2
    | Option.some pk =>
      t2.map (fun p =>
        if p.1 == pk then (p.1, eraseChildKey k p.2) else p)

/-- isHorizontalRuleNode from the source, applied to a table lookup result:
an instanceof check on the horizontal-rule variant. -/
def isHorizontalRuleLookup : Option TreeNode → Bool
  | Option.some n => n.data == NodeData.horizontalRule
  | Option.none => false

/-- onDelete callback of HorizontalRuleComponent from the source: when the
node is selected and the current selection is a node selection, look the node
up by key, remove it if it is a horizontal rule, deselect it; the callback
returns false in every case, so the command keeps propagating. -/
def onDelete (st : EditorState) (nodeKey : NodeKey) : EditorState × Bool :=
  if st.selection.isSelected nodeKey && st.selection.isNodeSelection then
    let node := getNode st.table nodeKey
    let table :=
      if isHorizontalRuleLookup node then removeNode st.table nodeKey
      else st.table
    let selection := st.selection.setSelected nodeKey false
    ({ table := table, selection := selection }, false)
  else
    (st, false)

/-- Error taxonomy of the spec (section 7), with a user-error carrier for
arbitrary mutator throws. -/
inductive LexError where
  | staleNode
  | invalidMove
  | noActiveTransaction
  | userError (message : String)
deriving DecidableEq, Repr

/-- Modelled from the spec: whether k lies strictly below anc in the tree,
following parent links upward; the fuel bounds the walk by the table size. -/
def isDescendantAux (t : NodeTable) : Nat → NodeKey → NodeKey → Bool
  | 0, _, _ => false
  | Nat.succ fuel, anc, k =>
    match getNode t k with
    | Option.none => false
    | Option.some n =>
      match n.parent with
      | Option.none => false
      | Option.some pk => pk == anc || isDescendantAux t fuel anc pk

/-- Modelled from the spec: the cycle check of structural moves, true when
the target is the moved node itself or one of its descendants. -/
def isSelfOrDescendant (t : NodeTable) (anc k : NodeKey) : Bool :=
  k == anc || isDescendantAux t t.length anc k

/-- Modelled from the spec: detach a node from its parent's child list
without evicting it from the table. -/
def detachNode (t : NodeTable) (k : NodeKey) : NodeTable :=
  match getNode t k with
  | Option.none => t
  | Option.some n =>
    match n.parent with
    | Option.none => t
    | Option.some pk =>
      t.map (fun p =>
        if p.1 == pk then (p.1, eraseChildKey k p.2) else p)

/-- Modelled from the spec: a structural move fails with InvalidMoveError
when the target is the moved node or one of its descendants, leaving the
state unchanged; otherwise it detaches the node, appends its key under the
target and repoints its parent link. -/
def moveNode (st : EditorState) (k target : NodeKey) :
    EditorState × Option LexError :=
  if isSelfOrDescendant st.table k target then
    (st, Option.some LexError.invalidMove)
  else
    let t2 := detachNode st.table k
    let t3 := t2.map (fun p =>
      if p.1 == target then (p.1, { p.2 with children := p.2.children ++ [k] })
      else p)
    let t4 := t3.map (fun p =>
      if p.1 == k then (p.1, { p.2 with parent := Option.some target })
      else p)
    ({ st with table := t4 }, Option.none)

/-- Modelled from the spec: an editor instance holds the current Editor State
and the record of errors surfaced through the configured error callback. -/
structure Editor where
  state : EditorState
  errors : List LexError
deriving DecidableEq, Repr

/-- Modelled from the spec: editor.update runs the mutator against a working
copy of the current Editor State; on success the working table is frozen into
the next state; if the mutator throws, the working table is discarded, the
prior Editor State remains authoritative, and the error is surfaced through
the configured error callback (recorded in the errors list). -/
def Editor.update (ed : Editor)
    (mutatorFn : EditorState → Except LexError EditorState) : Editor :=
  match mutatorFn ed.state with
  | Except.ok nextState => { ed with state := nextState }
  | Except.error e => { ed with errors := ed.errors ++ [e] }

/-- A registered command handler: a registration identifier, the numeric
priority, and the callback. -/
structure CommandHandler (α : Type) where
  id : Nat
  priority : Nat
  handle : α → Bool

/-- Ordering relation of dispatch: a comes no later than b when b's priority
is at most a's. -/
def handlerGE {α : Type} (a b : CommandHandler α) : Prop :=
  b.priority ≤ a.priority

instance {α : Type} : DecidableRel (@handlerGE α) :=
  fun a b => Nat.decLe b.priority a.priority

instance {α : Type} : IsTotal (CommandHandler α) handlerGE :=
  ⟨fun a b => Nat.le_total b.priority a.priority⟩

instance {α : Type} : IsTrans (CommandHandler α) handlerGE :=
  ⟨fun _ _ _ hab hbc => Nat.le_trans hbc hab⟩

/-- Modelled from the spec: the dispatch order of the registered handlers,
highest priority first. -/
def sortHandlersDesc {α : Type} (hs : List (CommandHandler α)) :
    List (CommandHandler α) :=
  List.insertionSort handlerGE hs

/-- Modelled from the spec: walk an ordered handler chain, invoking each
handler until one returns true; yields the invoked handlers in invocation
order and whether the command was handled. -/
def walkHandlers {α : Type} (payload : α) :
    List (CommandHandler α) → List (CommandHandler α) × Bool
  | [] => ([], false)
  | h :: rest =>
    if h.handle payload then ([h], true)
    else
      let r := walkHandlers payload rest
      (h :: r.1, r.2)

/-- Modelled from the spec: dispatch walks handlers from highest to lowest
priority, stopping at the first handler returning true. -/
def dispatchCommand {α : Type} (hs : List (CommandHandler α)) (payload : α) :
    List (CommandHandler α) × Bool :=
  walkHandlers payload (sortHandlersDesc hs)

/-- The handlers invoked by a dispatch, in invocation order. -/
def dispatchTrace {α : Type} (hs : List (CommandHandler α)) (payload : α) :
    List (CommandHandler α) :=
  (dispatchCommand hs payload).1

/-- C1: for every node subtype in the excerpt the static clone returns a node
of the same concrete type (enforced here by the Lean type of each clone
function) whose key equals the original node's key, and for the text-bearing
types the text (and mention) content equals the original's. -/
theorem clone_preserves_key_and_content :
    (∀ n : HashtagNode, (HashtagNode.clone n).key = n.key ∧
      (HashtagNode.clone n).text = n.text) ∧
    (∀ n : MentionNode, (MentionNode.clone n).key = n.key ∧
      (MentionNode.clone n).text = n.text ∧
      (MentionNode.clone n).mention = n.mention) ∧
    (∀ n : HorizontalRuleNode, (HorizontalRuleNode.clone n).key = n.key) ∧
    (∀ n : OverflowNode, (OverflowNode.clone n).key = n.key) :=
  ⟨fun _ => ⟨rfl, rfl⟩, fun _ => ⟨rfl, rfl, rfl⟩, fun _ => rfl, fun _ => rfl⟩

/-- C3: every HashtagNode, in particular one created from the text
"#lexical", reports isTextEntity true and canInsertTextBefore false. -/
theorem hashtag_isTextEntity_not_canInsertTextBefore :
    (∀ n : HashtagNode,
      n.isTextEntity = true ∧ n.canInsertTextBefore = false) ∧
    (createHashtagNode "#lexical" 0).isTextEntity = true ∧
    (createHashtagNode "#lexical" 0).canInsertTextBefore = false :=
  ⟨fun _ => ⟨rfl, rfl⟩, rfl, rfl⟩

/-- C8: every MentionNode built by the createMentionNode factory is in
segmented mode and directionless, its mention name and its text content both
equal the mentionName argument, and by the reconciler's merge rule it can
never be merged with adjacent text runs. -/
theorem createMentionNode_segmented_directionless_unmergeable
    (mentionName : String) (key : NodeKey) :
    (createMentionNode mentionName key).mode = TextMode.segmented ∧
    (createMentionNode mentionName key).directionless = true ∧
    (createMentionNode mentionName key).mention = mentionName ∧
    (createMentionNode mentionName key).text = mentionName ∧
    canMergeTextRun (createMentionNode mentionName key).toTextNode = false :=
  ⟨rfl, rfl, rfl, rfl, rfl⟩

/-- C10: updateDOM of HorizontalRuleNode and of OverflowNode returns false
for all inputs, so for a node present in both the previous and the next
Editor State the reconciler keeps the DOM element instead of performing a
full replacement. -/
theorem updateDOM_always_false_never_replaces :
    (∀ n : HorizontalRuleNode, n.updateDOM = false ∧
      reconcileBoth n.updateDOM = ReconcileAction.keep) ∧
    (∀ (n prevNode : OverflowNode) (dom : DOMElement),
      n.updateDOM prevNode dom = false ∧
      reconcileBoth (n.updateDOM prevNode dom) = ReconcileAction.keep) :=
  ⟨fun _ => ⟨rfl, rfl⟩, fun _ _ _ => ⟨rfl, rfl⟩⟩

/-- C9: OverflowNode.importDOM is null and excludeFromCopy returns true for
every overflow node, so the registered import machinery never produces an
overflow node from an external element and a copy that keeps exactly the
nodes not excluded from copy keeps no overflow node. -/
theorem overflow_never_imported_never_copied :
    OverflowNode.importDOM = Option.none ∧
    (∀ n : OverflowNode, n.excludeFromCopy = true) ∧
    (∀ (el : DOMElement) (key : NodeKey),
      runImport OverflowNode.importDOM el key = Option.none) ∧
    (∀ ns : List OverflowNode,
      ns.filter (fun n => !n.excludeFromCopy) = []) := by
  refine ⟨rfl, fun _ => rfl, fun _ _ => rfl, fun ns => ?_⟩
  induction ns with
  | nil => rfl
  | cons n rest ih => simp [List.filter_cons, OverflowNode.excludeFromCopy, ih]

/-- C2: importing the element exported by a MentionNode yields a MentionNode
whose text equals the original's, and importing the hr element exported by a
HorizontalRuleNode yields a HorizontalRuleNode (the key argument models the
key the core generates for the imported node). -/
theorem importDOM_exportDOM_roundtrip (key : NodeKey) :
    (∀ m : MentionNode, ∃ m2 : MentionNode,
      runImport MentionNode.importDOM m.exportDOM key =
        Option.some (DOMImportedNode.mention m2) ∧ m2.text = m.text) ∧
    (∀ h : HorizontalRuleNode, ∃ h2 : HorizontalRuleNode,
      runImport HorizontalRuleNode.importDOM h.exportDOM key =
        Option.some (DOMImportedNode.horizontalRule h2)) := by
  constructor
  · intro m
    exact ⟨createMentionNode m.text key, rfl, rfl⟩
  · intro h
    exact ⟨createHorizontalRuleNode key, rfl⟩

/-- Lookup in the empty node table. -/
theorem getNode_nil (k : NodeKey) : getNode [] k = Option.none := rfl

/-- Lookup in a non-empty node table: the first entry wins. -/
theorem getNode_cons (p : NodeKey × TreeNode) (t : NodeTable) (k : NodeKey) :
    getNode (p :: t) k =
      if p.1 = k then Option.some p.2 else getNode t k := by
  by_cases h : p.1 = k
  · simp [getNode, List.find?, h]
  · have hbeq : (p.1 == k) = false := by simp [h]
    simp [getNode, List.find?, hbeq, h]

/-- Filtering a key out of the table makes its lookup fail. -/
theorem getNode_filter_self (t : NodeTable) (k : NodeKey) :
    getNode (t.filter (fun p => p.1 != k)) k = Option.none := by
  induction t with
  | nil => rfl
  | cons p t ih =>
    by_cases h : p.1 = k
    · simp [List.filter_cons, h, ih]
    · simp [List.filter_cons, h, getNode_cons, ih]

/-- Filtering a key out of the table leaves every other lookup unchanged. -/
theorem getNode_filter_ne (t : NodeTable) (k k2 : NodeKey) (h : k2 ≠ k) :
    getNode (t.filter (fun p => p.1 != k)) k2 = getNode t k2 := by
  induction t with
  | nil => rfl
  | cons p t ih =>
    by_cases hp : p.1 = k
    · have hkk2 : ¬k = k2 := fun hc => h hc.symm
      simp [List.filter_cons, hp, getNode_cons, hkk2, ih]
    · simp [List.filter_cons, hp, getNode_cons, ih]

/-- Updating, in every entry of one key, the stored node with a function,
seen through lookups. -/
theorem getNode_map_update (t : NodeTable) (pk k2 : NodeKey)
    (f : TreeNode → TreeNode) :
    getNode (t.map (fun p =>
        if p.1 == pk then (p.1, f p.2) else p)) k2 =
      if k2 = pk then (getNode t k2).map f else getNode t k2 := by
  induction t with
  | nil => by_cases h : k2 = pk <;> simp [getNode_nil, h]
  | cons p t ih =>
    simp only [List.map_cons, getNode_cons]
    rw [ih]
    by_cases hpk : p.1 = pk
    · have hbeq : (p.1 == pk) = true := by simp [hpk]
      rw [hbeq]
      by_cases hk2 : p.1 = k2 <;> by_cases hq : k2 = pk <;> simp_all
    · have hbeq : (p.1 == pk) = false := by simp [hpk]
      rw [hbeq]
      by_cases hk2 : p.1 = k2 <;> by_cases hq : k2 = pk <;> simp_all

/-- Looking up the removed key after removeNode fails. -/
theorem getNode_removeNode_self (t : NodeTable) (k : NodeKey) :
    getNode (removeNode t k) k = Option.none := by
  cases hn : getNode t k with
  | none =>
    simp only [removeNode, hn]
  | some n =>
    cases hp : n.parent with
    | none =>
      simp only [removeNode, hn, hp]
      exact getNode_filter_self t k
    | some pk =>
      simp only [removeNode, hn, hp]
      rw [getNode_map_update]
      by_cases hk : k = pk
      · rw [if_pos hk, getNode_filter_self]
        rfl
      · rw [if_neg hk, getNode_filter_self]

/-- Looking up any other key after removeNode gives the old entry, with the
removed key dropped from the child list when the other key is the removed
node's parent. -/
theorem getNode_removeNode_ne (t : NodeTable) (k k2 : NodeKey) (n : TreeNode)
    (hnode : getNode t k = Option.some n) (h : k2 ≠ k) :
    getNode (removeNode t k) k2 =
      (getNode t k2).map (fun m =>
        if n.parent = Option.some k2 then eraseChildKey k m else m) := by
  cases hp : n.parent with
  | none =>
    simp only [removeNode, hnode, hp]
    rw [getNode_filter_ne _ _ _ h]
    cases getNode t k2 <;> simp
  | some pk =>
    simp only [removeNode, hnode, hp]
    rw [getNode_map_update, getNode_filter_ne _ _ _ h]
    by_cases hkpk : k2 = pk
    · subst hkpk
      simp
    · have hne : ¬(Option.some pk = Option.some k2) := fun hc =>
        hkpk (Option.some.inj hc).symm
      rw [if_neg hkpk]
      cases getNode t k2 with
      | none => rfl
      | some m => simp [hne]

/-- Removing a key from a key list leaves a list that no longer contains
it. -/
theorem contains_filter_ne_self (l : List NodeKey) (a : NodeKey) :
    (l.filter (fun x => x != a)).contains a = false := by
  induction l with
  | nil => rfl
  | cons x l ih =>
    by_cases hx : x = a
    · simp [List.filter_cons, hx, ih]
    · simp [List.filter_cons, hx, List.contains_cons, ih, Ne.symm hx]

/-- C4: for a HorizontalRuleNode currently selected through a Node-selection,
the delete/backspace handler registered by HorizontalRuleComponent removes
exactly that node from the table (the only other change being that its
parent's child list loses its key), removes the key from the node selection
so it is no longer selected, and returns false to the dispatcher. -/
theorem hr_delete_removes_exactly_selected_node
    (st : EditorState) (hrKey : NodeKey) (ks : List NodeKey) (n : TreeNode)
    (hsel : st.selection = Selection.nodeSelection ks)
    (hmem : ks.contains hrKey = true)
    (hnode : getNode st.table hrKey = Option.some n)
    (hdata : n.data = NodeData.horizontalRule) :
    getNode (onDelete st hrKey).1.table hrKey = Option.none ∧
    (∀ k2, k2 ≠ hrKey →
      getNode (onDelete st hrKey).1.table k2 =
        (getNode st.table k2).map (fun m =>
          if n.parent = Option.some k2 then eraseChildKey hrKey m else m)) ∧
    (onDelete st hrKey).1.selection =
      Selection.nodeSelection (ks.filter (fun k2 => k2 != hrKey)) ∧
    (onDelete st hrKey).1.selection.isSelected hrKey = false ∧
    (onDelete st hrKey).2 = false := by
  have hcond : st.selection.isSelected hrKey = true := by
    rw [hsel]
    exact hmem
  have hnodesel : st.selection.isNodeSelection = true := by
    rw [hsel]
    rfl
  have hhr : isHorizontalRuleLookup (getNode st.table hrKey) = true := by
    rw [hnode]
    simp [isHorizontalRuleLookup, hdata]
  have honD : onDelete st hrKey =
      ({ table := removeNode st.table hrKey,
         selection := st.selection.setSelected hrKey false }, false) := by
    simp [onDelete, hcond, hnodesel, hhr]
  refine ⟨?_, ?_, ?_, ?_, ?_⟩
  · rw [honD]
    exact getNode_removeNode_self st.table hrKey
  · intro k2 hk2
    rw [honD]
    exact getNode_removeNode_ne st.table hrKey k2 n hnode hk2
  · rw [honD, hsel]
    rfl
  · rw [honD, hsel]
    simp [Selection.setSelected, Selection.isSelected, contains_filter_ne_self]
  · rw [honD]

/-- Example horizontal-rule tree node used by the concrete delete check. -/
def exHrNode : TreeNode :=
  { parent := Option.some 0, children := [], data := NodeData.horizontalRule }

/-- Example Editor State: a root holding a horizontal rule (key 1) and a text
node (key 2), with the horizontal rule selected via a Node-selection. -/
def exHrState : EditorState :=
  { table :=
      [(0, { parent := Option.none, children := [1, 2],
             data := NodeData.root }),
       (1, exHrNode),
       (2, { parent := Option.some 0, children := [],
             data := NodeData.text (TextNode.new "hello" 2) })],
    selection := Selection.nodeSelection [1] }

/-- Witness for the delete scenario at a concrete three-node tree with the
horizontal rule selected. -/
theorem hr_delete_removes_exactly_selected_node_witness :
    exHrState.selection = Selection.nodeSelection [1] ∧
    ([1] : List NodeKey).contains 1 = true ∧
    getNode exHrState.table 1 = Option.some exHrNode ∧
    exHrNode.data = NodeData.horizontalRule ∧
    getNode (onDelete exHrState 1).1.table 1 = Option.none ∧
    getNode (onDelete exHrState 1).1.table 0 =
      (getNode exHrState.table 0).map (fun m =>
        if exHrNode.parent = Option.some 0 then eraseChildKey 1 m else m) ∧
    (onDelete exHrState 1).1.selection.isSelected 1 = false := by
  have h := hr_delete_removes_exactly_selected_node exHrState 1 [1] exHrNode
    rfl (by decide) (by decide) rfl
  exact ⟨rfl, by decide, by decide, rfl, h.1, h.2.1 0 (by decide),
    h.2.2.2.1⟩

/-- C6: when the mutator of a transaction throws, the working copy is
discarded: the prior Editor State remains the current state unchanged, and
the error is surfaced through the configured error callback. -/
theorem update_throw_preserves_state (ed : Editor)
    (mutatorFn : EditorState → Except LexError EditorState) (e : LexError)
    (h : mutatorFn ed.state = Except.error e) :
    (ed.update mutatorFn).state = ed.state ∧
    (ed.update mutatorFn).errors = ed.errors ++ [e] := by
  simp [Editor.update, h]

/-- Example editor with an empty history of surfaced errors. -/
def exEditor : Editor :=
  { state :=
      { table := [(0, { parent := Option.none, children := [],
                        data := NodeData.root })],
        selection := Selection.noSelection },
    errors := [] }

/-- Example mutator that always throws. -/
def exThrowingMutator : EditorState → Except LexError EditorState :=
  fun _ => Except.error LexError.invalidMove

/-- Witness for the failed-transaction guarantee at a concrete editor and a
throwing mutator. -/
theorem update_throw_preserves_state_witness :
    exThrowingMutator exEditor.state = Except.error LexError.invalidMove ∧
    (exEditor.update exThrowingMutator).state = exEditor.state ∧
    (exEditor.update exThrowingMutator).errors = [LexError.invalidMove] := by
  have h := update_throw_preserves_state exEditor exThrowingMutator
    LexError.invalidMove rfl
  refine ⟨rfl, h.1, ?_⟩
  rw [h.2]
  rfl

/-- C7: a structural move whose target position is the moved node itself or
one of its descendants fails with InvalidMoveError, and the Editor State
(hence the tree) in the result is the unchanged input state. -/
theorem moveNode_to_descendant_fails (st : EditorState) (k target : NodeKey)
    (h : isSelfOrDescendant st.table k target = true) :
    moveNode st k target = (st, Option.some LexError.invalidMove) := by
  simp [moveNode, h]

/-- Example Editor State with a root, an element (key 1) and its child
element (key 2). -/
def exMoveState : EditorState :=
  { table :=
      [(0, { parent := Option.none, children := [1],
             data := NodeData.root }),
       (1, { parent := Option.some 0, children := [2],
             data := NodeData.element "div" }),
       (2, { parent := Option.some 1, children := [],
             data := NodeData.element "span" })],
    selection := Selection.noSelection }

/-- Witness for the invalid-move guarantee: moving node 1 under its own
child 2 fails and changes nothing. -/
theorem moveNode_to_descendant_fails_witness :
    isSelfOrDescendant exMoveState.table 1 2 = true ∧
    moveNode exMoveState 1 2 =
      (exMoveState, Option.some LexError.invalidMove) :=
  ⟨by decide, moveNode_to_descendant_fails exMoveState 1 2 (by decide)⟩

/-- Walk equation: a handler returning true is invoked alone and handles the
command. -/
theorem walkHandlers_cons_true {α : Type} (payload : α)
    (h : CommandHandler α) (rest : List (CommandHandler α))
    (hh : h.handle payload = true) :
    walkHandlers payload (h :: rest) = ([h], true) := by
  simp [walkHandlers, hh]

/-- Walk equation: a handler returning false is invoked and the walk goes
on. -/
theorem walkHandlers_cons_false {α : Type} (payload : α)
    (h : CommandHandler α) (rest : List (CommandHandler α))
    (hh : h.handle payload = false) :
    walkHandlers payload (h :: rest) =
      (h :: (walkHandlers payload rest).1,
        (walkHandlers payload rest).2) := by
  simp [walkHandlers, hh]

/-- Every handler invoked by a walk comes from the chain it walked. -/
theorem walkHandlers_mem {α : Type} (payload : α)
    (l : List (CommandHandler α)) (x : CommandHandler α)
    (hx : x ∈ (walkHandlers payload l).1) : x ∈ l := by
  induction l with
  | nil =>
    simp [walkHandlers] at hx
  | cons h rest ih =>
    cases hh : h.handle payload with
    | true =>
      rw [walkHandlers_cons_true payload h rest hh] at hx
      simp at hx
      simp [hx]
    | false =>
      rw [walkHandlers_cons_false payload h rest hh] at hx
      rcases List.mem_cons.mp hx with hx2 | hx2
      · simp [hx2]
      · exact List.mem_cons_of_mem _ (ih hx2)

/-- Walking a chain sorted by descending priority invokes handlers in
descending priority order. -/
theorem walkHandlers_sorted {α : Type} (payload : α)
    (l : List (CommandHandler α)) (hl : List.Sorted handlerGE l) :
    List.Sorted handlerGE (walkHandlers payload l).1 := by
  induction l with
  | nil => simp [walkHandlers]
  | cons h rest ih =>
    rcases List.sorted_cons.mp hl with ⟨hhead, htail⟩
    cases hh : h.handle payload with
    | true =>
      rw [walkHandlers_cons_true payload h rest hh]
      simp
    | false =>
      rw [walkHandlers_cons_false payload h rest hh]
      exact List.sorted_cons.mpr
        ⟨fun x hx => hhead x (walkHandlers_mem payload rest x hx), ih htail⟩

/-- Every invoked handler except possibly the last one returned false: the
walk stops at the first handler returning true. -/
theorem walkHandlers_dropLast_false {α : Type} (payload : α)
    (l : List (CommandHandler α)) :
    ∀ x ∈ ((walkHandlers payload l).1).dropLast,
      x.handle payload = false := by
  induction l with
  | nil =>
    intro x hx
    simp [walkHandlers] at hx
  | cons h rest ih =>
    intro x hx
    cases hh : h.handle payload with
    | true =>
      rw [walkHandlers_cons_true payload h rest hh] at hx
      simp at hx
    | false =>
      rw [walkHandlers_cons_false payload h rest hh] at hx
      cases hw : (walkHandlers payload rest).1 with
      | nil =>
        rw [hw] at hx
        simp at hx
      | cons y ys =>
        rw [hw, List.dropLast_cons₂] at hx
        rcases List.mem_cons.mp hx with hx2 | hx2
        · rw [hx2]
          exact hh
        · exact ih x (by rw [hw]; exact hx2)

/-- The walk reports the command handled exactly when the last invoked
handler returned true. -/
theorem walkHandlers_handled_iff {α : Type} (payload : α)
    (l : List (CommandHandler α)) :
    (walkHandlers payload l).2 = true ↔
      ∃ x, ((walkHandlers payload l).1).getLast? = Option.some x ∧
        x.handle payload = true := by
  induction l with
  | nil => simp [walkHandlers]
  | cons h rest ih =>
    cases hh : h.handle payload with
    | true =>
      rw [walkHandlers_cons_true payload h rest hh]
      simp [hh]
    | false =>
      rw [walkHandlers_cons_false payload h rest hh]
      cases hw : (walkHandlers payload rest).1 with
      | nil =>
        rw [hw] at ih
        simp only [List.getLast?_nil] at ih
        show (walkHandlers payload rest).2 = true ↔
          ∃ x, ([h] : List (CommandHandler α)).getLast? = Option.some x ∧
            x.handle payload = true
        simp only [List.getLast?_singleton]
        constructor
        · intro h2
          rcases ih.mp h2 with ⟨x, hx1, _⟩
          exact Option.noConfusion hx1
        · intro h2
          rcases h2 with ⟨x, hx1, hx2⟩
          rw [← Option.some.inj hx1] at hx2
          rw [hh] at hx2
          exact Bool.noConfusion hx2
      | cons y ys =>
        rw [hw] at ih
        show (walkHandlers payload rest).2 = true ↔
          ∃ x, (h :: y :: ys).getLast? = Option.some x ∧
            x.handle payload = true
        rw [List.getLast?_cons_cons]
        exact ih

/-- When every handler in the chain returns false, the walk invokes them all
and the command is unhandled. -/
theorem walkHandlers_all_false {α : Type} (payload : α)
    (l : List (CommandHandler α))
    (h : ∀ x ∈ l, x.handle payload = false) :
    walkHandlers payload l = (l, false) := by
  induction l with
  | nil => rfl
  | cons hd rest ih =>
    have hhd : hd.handle payload = false := h hd (List.mem_cons_self hd rest)
    have ihr := ih (fun x hx => h x (List.mem_cons_of_mem _ hx))
    rw [walkHandlers_cons_false payload hd rest hhd, ihr]

/-- C5: dispatch invokes registered handlers in order from highest to lowest
priority; every invoked handler except possibly the last returned false and
invocation stops at the first handler returning true (the dispatch is handled
exactly when the last invoked handler returned true); when every registered
handler returns false none of them stops the chain and all are invoked. -/
theorem dispatch_priority_order_and_stop {α : Type}
    (hs : List (CommandHandler α)) (payload : α) :
    List.Sorted handlerGE (dispatchTrace hs payload) ∧
    (∀ h ∈ (dispatchTrace hs payload).dropLast, h.handle payload = false) ∧
    ((dispatchCommand hs payload).2 = true ↔
      ∃ h, (dispatchTrace hs payload).getLast? = Option.some h ∧
        h.handle payload = true) ∧
    ((∀ h ∈ hs, h.handle payload = false) →
      dispatchTrace hs payload = sortHandlersDesc hs) := by
  refine ⟨?_, ?_, ?_, ?_⟩
  · exact walkHandlers_sorted payload (sortHandlersDesc hs)
      (List.sorted_insertionSort handlerGE hs)
  · exact walkHandlers_dropLast_false payload (sortHandlersDesc hs)
  · exact walkHandlers_handled_iff payload (sortHandlersDesc hs)
  · intro hall
    have hsorted : ∀ x ∈ sortHandlersDesc hs, x.handle payload = false :=
      fun x hx =>
        hall x ((List.perm_insertionSort handlerGE hs).subset hx)
    show (walkHandlers payload (sortHandlersDesc hs)).1 = sortHandlersDesc hs
    rw [walkHandlers_all_false payload (sortHandlersDesc hs) hsorted]

/-- Example handler chain: two handlers that both decline the command. -/
def exHandlers : List (CommandHandler Nat) :=
  [{ id := 1, priority := 0, handle := fun _ => false },
   { id := 2, priority := 3, handle := fun _ => false }]

/-- Witness for the dispatch contract: with the concrete chain of declining
handlers, dispatch invokes every handler. -/
theorem dispatch_priority_order_and_stop_witness :
    (∀ h ∈ exHandlers, h.handle 0 = false) ∧
    dispatchTrace exHandlers 0 = sortHandlersDesc exHandlers := by
  have hall : ∀ h ∈ exHandlers, h.handle 0 = false := by
    intro h hmem
    rcases List.mem_cons.mp hmem with rfl | hmem2
    · rfl
    · rcases List.mem_cons.mp hmem2 with rfl | hmem3
      · rfl
      · simp at hmem3
  exact ⟨hall, (dispatch_priority_order_and_stop exHandlers 0).2.2.2 hall⟩
